import Mathlib

/-!
Verification development for the Semase hybrid-search backend.

The definitions below are a shallow embedding of the repository's core code:
`aggregate_search_hits` (src/utils.py), `make_snippet` and the `search`
orchestrator (src/main.py).  Python floats are modelled as rationals (ℚ),
Python dicts as insertion-ordered association lists, Python's stable
`sorted(..., reverse=True)` as `List.mergeSort` with a ≥-on-key comparator
(stable merge sort, like CPython's), machine strings as `String` or
`List Char` (character-level, as the spec requires code-point semantics),
and exceptions as the `Except` monad.
-/

namespace Semase

/-- Embeds the `retriever: Literal["bm25", "vector"]` tag of `Passage`. -/
inductive Retriever where
  | bm25
  | vector
deriving DecidableEq, Repr

/-- Embeds the pydantic model `Passage` of src/utils.py. -/
structure Passage where
  chunk_id : String
  text : String
  score : ℚ
  retriever : Retriever
deriving DecidableEq, Repr

/-- Embeds the pydantic model `DocumentMetaData` of src/utils.py
(`last_modified : datetime` is modelled as an integer timestamp). -/
structure DocumentMetaData where
  title : String
  url : String
  content_type : String
  last_modified : Int
  storage_size : Int
deriving DecidableEq, Repr

/-- Embeds the pydantic model `SearchHit` of src/utils.py.  The pydantic
defaults (`bm25 = None`, `cosine = None`, `score = 0.0`, `meta = None`,
`passages = []`) are supplied by `emptyHit` below. -/
structure SearchHit where
  id : String
  bm25 : Option ℚ
  cosine : Option ℚ
  score : ℚ
  meta : Option DocumentMetaData
  passages : List Passage
deriving DecidableEq, Repr

/-- `SearchHit(id=doc_id, passages=[])` with all pydantic field defaults. -/
def emptyHit (id : String) : SearchHit :=
  { id := id, bm25 := none, cosine := none, score := 0, meta := none, passages := [] }

/-- Lookup in an insertion-ordered association list (a Python dict). -/
def alookup {β : Type} (k : String) : List (String × β) → Option β
  | [] => none
  | (k', v) :: t => if k' = k then some v else alookup k t

/-- Embeds the loop `for i, h in enumerate(xs, start=1): rank.setdefault(h.id, i)`
of `aggregate_search_hits` (src/utils.py lines 64-70), threading the 1-based
enumeration index `i` and the dict `acc`. -/
def ranksAux : List String → Nat → List (String × Nat) → List (String × Nat)
  | [], _, acc => acc
  | d :: ds, i, acc =>
      ranksAux ds (i + 1) (if (alookup d acc).isSome then acc else acc ++ [(d, i)])

/-- The rank map built from a modality subsequence's document ids. -/
def buildRanks (ids : List String) : List (String × Nat) :=
  ranksAux ids 1 []

/-- Embeds `max(m.field or float("-inf"), b)` (src/utils.py lines 84, 86):
Python `or` treats both `None` and `0.0` as falsy, replacing them by `-inf`,
and `max(-inf, b) = b`. -/
def pyMaxOr (mv : Option ℚ) (b : ℚ) : ℚ :=
  match mv with
  | none => b
  | some v => if v = 0 then b else max v b

/-- One iteration of the merge loop body (src/utils.py lines 79-90) applied to
the merged hit `m` for document `h.id`: fold raw scores and append passages.
(`if h.passages: m.passages.extend(h.passages)` equals appending `h.passages`
unconditionally, since extending by the empty list is a no-op.) -/
def absorbHit (m h : SearchHit) : SearchHit :=
  { m with
    bm25 :=
      match h.bm25 with
      | none => m.bm25
      | some b => some (pyMaxOr m.bm25 b),
    cosine :=
      match h.cosine with
      | none => m.cosine
      | some c => some (pyMaxOr m.cosine c),
    passages := m.passages ++ h.passages }

/-- One iteration of `for h in hits_list` over the insertion-ordered dict
`merged` (src/utils.py lines 72-90): `_ensure` inserts a fresh
`SearchHit(id=doc_id, passages=[])` on first sight, then the body mutates the
entry in place. -/
def foldHit (acc : List (String × SearchHit)) (h : SearchHit) : List (String × SearchHit) :=
  match alookup h.id acc with
  | none => acc ++ [(h.id, absorbHit (emptyHit h.id) h)]
  | some m => acc.map (fun kv => if kv.1 = h.id then (kv.1, absorbHit m h) else kv)

/-- One iteration of the passage-dedup loop (src/utils.py lines 102-106):
`if old is None or p.score > old.score: best_by_chunk[p.chunk_id] = p`,
keeping dict insertion order on update. -/
def updateBest (acc : List (String × Passage)) (p : Passage) : List (String × Passage) :=
  match alookup p.chunk_id acc with
  | none => acc ++ [(p.chunk_id, p)]
  | some old =>
      if old.score < p.score then
        acc.map (fun kv => if kv.1 = p.chunk_id then (kv.1, p) else kv)
      else acc

/-- The dict `best_by_chunk` after the dedup loop (src/utils.py lines 102-106). -/
def bestByChunk : List Passage → List (String × Passage) → List (String × Passage)
  | [], acc => acc
  | p :: ps, acc => bestByChunk ps (updateBest acc p)

/-- Comparator embedding `sorted(..., key=lambda x: x.score, reverse=True)`
on passages; CPython's sort is a stable merge sort, as is `List.mergeSort`. -/
def passageDesc (a b : Passage) : Bool :=
  decide (b.score ≤ a.score)

/-- `sorted(best_by_chunk.values(), key=lambda x: x.score, reverse=True)[:max_passages_per_doc]`
(src/utils.py line 109). -/
def processPassages (maxP : Nat) (ps : List Passage) : List Passage :=
  (((bestByChunk ps []).map (fun kv => kv.2)).mergeSort passageDesc).take maxP

/-- One modality's contribution `w * (1.0 / (rrf_k + rank))` to the fused
score, `0.0` when the document has no rank in that modality
(src/utils.py lines 94-98). -/
def rrfTerm (w : ℚ) (rrf_k : Int) (r : Option Nat) : ℚ :=
  match r with
  | none => 0
  | some rank => w * (1 / ((rrf_k : ℚ) + (rank : ℚ)))

/-- The second loop body of `aggregate_search_hits` (src/utils.py lines
93-109): set the fused RRF score and replace the passages by the deduped,
sorted, truncated list. -/
def finalizeHit (text_rank vector_rank : List (String × Nat)) (w_text w_vector : ℚ)
    (rrf_k : Int) (maxP : Nat) (m : SearchHit) : SearchHit :=
  { m with
    score := rrfTerm w_text rrf_k (alookup m.id text_rank)
      + rrfTerm w_vector rrf_k (alookup m.id vector_rank),
    passages := processPassages maxP m.passages }

/-- Comparator embedding `sorted(..., key=lambda x: x.score, reverse=True)`
on merged hits (src/utils.py line 111). -/
def hitDesc (a b : SearchHit) : Bool :=
  decide (b.score ≤ a.score)

/-- Embeds `aggregate_search_hits` (src/utils.py lines 46-111).  The Python
defaults are `w_text = 1.0`, `w_vector = 1.0`, `rrf_k = 60`,
`max_passages_per_doc = 3`; callers here pass them explicitly. -/
def aggregate_search_hits (hits : List SearchHit) (w_text w_vector : ℚ) (rrf_k : Int)
    (max_passages_per_doc : Nat) : List SearchHit :=
  let text_rank := buildRanks ((hits.filter (fun h => h.bm25.isSome)).map (fun h => h.id))
  let vector_rank := buildRanks ((hits.filter (fun h => h.cosine.isSome)).map (fun h => h.id))
  let merged := hits.foldl foldHit []
  (merged.map (fun kv =>
    finalizeHit text_rank vector_rank w_text w_vector rrf_k max_passages_per_doc kv.2)).mergeSort
    hitDesc

/-- Embeds Python `str.strip()`: drop whitespace from both ends. -/
def pyStrip (s : List Char) : List Char :=
  ((s.dropWhile Char.isWhitespace).reverse.dropWhile Char.isWhitespace).reverse

/-- Embeds Python `str.lower()` character-wise. -/
def lowerStr (s : List Char) : List Char :=
  s.map Char.toLower

/-- Embeds Python `t.find(q)`: the least index at which `q` occurs as a
contiguous substring of `t`, `none` when there is no occurrence (`-1`). -/
def strFind (t q : List Char) : Option Nat :=
  (List.range (t.length + 1)).find? (fun i => q.isPrefixOf (t.drop i))

/-- The three-character ellipsis marker `"..."`. -/
def ellipsis : List Char :=
  ['.', '.', '.']

/-- Embeds `make_snippet` (src/main.py lines 158-174) on character lists.
`start = max(0, idx - window // 2)` is natural-number truncated subtraction;
`t[start:end]` is `drop start` then `take (end - start)`. -/
def make_snippet (text query : List Char) (window : Nat) : List Char :=
  if text = [] then []
  else
    let q := pyStrip query
    if q = [] then
      text.take window ++ (if window < text.length then ellipsis else [])
    else
      match strFind (lowerStr text) (lowerStr q) with
      | none => text.take window ++ (if window < text.length then ellipsis else [])
      | some idx =>
          let start := idx - window / 2
          let stop := min text.length (idx + window / 2)
          (if 0 < start then ellipsis else []) ++ (text.drop start).take (stop - start)
            ++ (if stop < text.length then ellipsis else [])

/-- Embeds `_recall_k` (src/main.py lines 198-200). -/
def recall_k (page page_size : Int) : Int :=
  max 50 (page * page_size * 5)

/-- The JSON payload returned by the `search` endpoint (src/main.py 235-242). -/
structure SearchResponse where
  query : String
  page : Int
  page_size : Int
  total_results : Int
  total_pages : Int
  results : List SearchHit
deriving DecidableEq, Repr

/-- Embeds the metadata-enrichment loop of `search` (src/main.py lines
225-233): each page entry's `meta` is fetched from the document store; a
raised lookup error propagates. -/
def enrich (getDocument : String → Except String DocumentMetaData) :
    List SearchHit → Except String (List SearchHit)
  | [] => Except.ok []
  | d :: ds => do
      let m ← getDocument d.id
      let rest ← enrich getDocument ds
      Except.ok ({ d with meta := some m } :: rest)

/-- Embeds the `search` endpoint (src/main.py lines 203-242).  The two
retrieval adapters and the metadata store are external collaborators, passed
as `Except`-valued functions; the body awaits them in sequence with no
`try/except`, so any raised error propagates to the caller. -/
def search (text_search vector_search : String → Int → Except String (List SearchHit))
    (getDocument : String → Except String DocumentMetaData)
    (query : String) (page page_size : Int) : Except String SearchResponse := do
  let page := if page < 1 then 1 else page
  let page_size := if page_size < 1 then 10 else page_size
  let k := recall_k page page_size
  let text_search_hits ← text_search query k
  let vector_search_hits ← vector_search query k
  let documents := aggregate_search_hits (text_search_hits ++ vector_search_hits) 1 1 60 3
  let total_results : Int := documents.length
  let total_pages := (total_results + page_size - 1) / page_size
  let start := (page - 1) * page_size
  let paginated := (documents.drop start.toNat).take page_size.toNat
  let enriched ← enrich getDocument paginated
  Except.ok
    { query := query, page := page, page_size := page_size, total_results := total_results,
      total_pages := total_pages, results := enriched }

/-! ### Helper definitions used by the theorems -/

/-- The 1-based position of the first occurrence of `d` when scanning `ids`
starting from index `i`. -/
def firstRankAux : List String → Nat → String → Option Nat
  | [], _, _ => none
  | e :: es, i, d => if e = d then some i else firstRankAux es (i + 1) d

/-- All input passages belonging to document `d`, concatenated in input
order: the passages `aggregate_search_hits` folds into the merged hit for `d`. -/
def docPassages (hits : List SearchHit) (d : String) : List Passage :=
  (hits.filter (fun h => h.id = d)).flatMap (fun h => h.passages)

/-- One step of the Python dedup update on a single chunk's candidates:
keep the incumbent unless the newcomer's score is strictly greater. -/
def pyStep (b : Option Passage) (p : Passage) : Option Passage :=
  match b with
  | none => some p
  | some old => if old.score < p.score then some p else some old

/-- Specification-side selection: the first passage of `g` whose score is
greater than or equal to every score in `g` (the first encountered passage
with the highest score, per the spec's tie rule). -/
def firstMax (g : List Passage) : Option Passage :=
  g.find? (fun p => g.all (fun q => decide (q.score ≤ p.score)))

/-- Specification-side dedup: among the passages of `ps` with chunk id `c`,
the first one attaining the highest score. -/
def firstBest (ps : List Passage) (c : String) : Option Passage :=
  firstMax (ps.filter (fun p => p.chunk_id = c))

/-- The distinct elements of a list in order of first appearance. -/
def firstDedup : List String → List String
  | [] => []
  | x :: xs => x :: (firstDedup xs).filter (fun y => decide (y ≠ x))

/-- Specification-side passage deduplication, following the spec's words:
group the passages by chunk id (groups ordered by first appearance) and keep
from each group the first passage attaining the highest score. -/
def dedupByChunkSpec (ps : List Passage) : List Passage :=
  (firstDedup (ps.map (fun p => p.chunk_id))).filterMap (fun c => firstBest ps c)

/-- The fields of a `SearchHit` that `aggregate_search_hits` reads: `id`,
`bm25`, `cosine` and `passages` (`score` and `meta` are never consulted). -/
def hitView (h : SearchHit) : String × Option ℚ × Option ℚ × List Passage :=
  (h.id, h.bm25, h.cosine, h.passages)

/-- Invariant of the merge loop of `aggregate_search_hits` after folding
`processed`: the dict keys are distinct, a key is present exactly for the
document ids seen so far, and each entry is a fresh hit (`meta` unset) whose
`id` is its key and whose passages are the concatenated input passages of its
document. -/
def MergedInv (processed : List SearchHit) (acc : List (String × SearchHit)) : Prop :=
  (acc.map Prod.fst).Nodup ∧
  (∀ d, (alookup d acc).isSome ↔ d ∈ processed.map (fun h => h.id)) ∧
  (∀ kv ∈ acc, kv.2.id = kv.1 ∧ kv.2.meta = none ∧
    kv.2.passages = docPassages processed kv.1)

/-- A concrete metadata record used by the concrete evaluations below. -/
def sampleMeta : DocumentMetaData :=
  { title := "t", url := "u", content_type := "c", last_modified := 0, storage_size := 0 }

/-- A concrete hit with junk `score` and populated `meta`, used to witness
that `aggregate_search_hits` ignores both fields. -/
def scoredMetaHit : SearchHit :=
  { id := "A", bm25 := some 2, cosine := none, score := 99, meta := some sampleMeta,
    passages := [] }

/-- Two passages for the same chunk with different scores, from different
retrievers: the dedup must keep exactly one, with the higher score. -/
def demoPassageLow : Passage :=
  { chunk_id := "c1", text := "x", score := 1, retriever := Retriever.bm25 }

/-- See `demoPassageLow`. -/
def demoPassageHigh : Passage :=
  { chunk_id := "c1", text := "y", score := 2, retriever := Retriever.vector }

/-- Two hits for the same document carrying the same chunk with different
scores (the spec's passage-dedup scenario). -/
def demoDupChunkHits : List SearchHit :=
  [{ emptyHit "A" with bm25 := some 5, passages := [demoPassageLow] },
   { emptyHit "A" with cosine := some 1, passages := [demoPassageHigh] }]

/-! ### Association-list (Python dict) lemmas -/

@[simp]
theorem alookup_nil {β : Type} (k : String) : alookup k ([] : List (String × β)) = none :=
  rfl

@[simp]
theorem alookup_cons {β : Type} (k k' : String) (v : β) (t : List (String × β)) :
    alookup k ((k', v) :: t) = if k' = k then some v else alookup k t :=
  rfl

theorem alookup_append {β : Type} (k : String) (l₁ l₂ : List (String × β)) :
    alookup k (l₁ ++ l₂) =
      match alookup k l₁ with
      | some v => some v
      | none => alookup k l₂ := by
  induction l₁ with
  | nil => simp
  | cons kv t ih =>
      obtain ⟨k', v⟩ := kv
      by_cases h : k' = k <;> simp [h, ih]

theorem alookup_eq_none_iff {β : Type} (k : String) (l : List (String × β)) :
    alookup k l = none ↔ k ∉ l.map Prod.fst := by
  induction l with
  | nil => simp
  | cons kv t ih =>
      obtain ⟨k', v⟩ := kv
      by_cases h : k' = k
      · subst h; simp
      · rw [alookup_cons, if_neg h, ih, List.map_cons, List.mem_cons, not_or]
        constructor
        · exact fun hn => ⟨fun he => h he.symm, hn⟩
        · exact fun hn => hn.2

theorem alookup_isSome_iff {β : Type} (k : String) (l : List (String × β)) :
    (alookup k l).isSome ↔ k ∈ l.map Prod.fst := by
  rw [Option.isSome_iff_ne_none, ne_eq, alookup_eq_none_iff, not_not]

theorem alookup_of_mem_of_nodup {β : Type} :
    ∀ {l : List (String × β)} {kv : String × β},
      (l.map Prod.fst).Nodup → kv ∈ l → alookup kv.1 l = some kv.2 := by
  intro l
  induction l with
  | nil => intro kv _ hm; simp at hm
  | cons kv' t ih =>
      intro kv hnd hm
      obtain ⟨k', v'⟩ := kv'
      simp only [List.map_cons, List.nodup_cons] at hnd
      simp only [List.mem_cons] at hm
      rcases hm with rfl | hm
      · simp
      · have hk : k' ≠ kv.1 := fun h => hnd.1 (h ▸ List.mem_map.mpr ⟨kv, hm, rfl⟩)
        rw [alookup_cons, if_neg hk]
        exact ih hnd.2 hm

/-- Lookup through the in-place value update `fun kv => if kv.1 = key then (key, v) else kv`,
which models assigning `dict[key] = v` to an existing key. -/
theorem alookup_map_update {β : Type} (c key : String) (v : β) (l : List (String × β)) :
    alookup c (l.map (fun kv => if kv.1 = key then (kv.1, v) else kv)) =
      if c = key then (alookup c l).map (fun _ => v) else alookup c l := by
  induction l with
  | nil => simp
  | cons kv t ih =>
      obtain ⟨k', v'⟩ := kv
      by_cases hk : k' = key
      · subst hk
        by_cases hc : k' = c
        · subst hc; simp [ih]
        · have hck : ¬(c = k') := fun h => hc h.symm
          simp [hc, hck, ih]
      · by_cases hc : k' = c
        · subst hc
          have hck : ¬(k' = key) := hk
          simp [hk, hck]
        · simp [hk, hc, ih]

theorem map_fst_map_update {β : Type} (key : String) (v : β) (l : List (String × β)) :
    (l.map (fun kv => if kv.1 = key then (kv.1, v) else kv)).map Prod.fst = l.map Prod.fst := by
  induction l with
  | nil => simp
  | cons kv t ih =>
      obtain ⟨k', v'⟩ := kv
      by_cases hk : k' = key <;> simp [hk, ih]

/-! ### Rank-map characterization (claim C1) -/

theorem ranksAux_alookup (d : String) :
    ∀ (ids : List String) (i : Nat) (acc : List (String × Nat)),
      alookup d (ranksAux ids i acc) =
        match alookup d acc with
        | some v => some v
        | none => firstRankAux ids i d := by
  intro ids
  induction ids with
  | nil =>
      intro i acc
      simp only [ranksAux, firstRankAux]
      cases alookup d acc <;> rfl
  | cons e es ih =>
      intro i acc
      simp only [ranksAux]
      by_cases hs : (alookup e acc).isSome
      · rw [if_pos hs, ih]
        by_cases hed : e = d
        · subst hed
          obtain ⟨v, hv⟩ := Option.isSome_iff_exists.mp hs
          simp [hv, firstRankAux]
        · simp [firstRankAux, hed]
      · rw [if_neg hs]
        rw [ih]
        rw [alookup_append]
        have hnone : alookup e acc = none := Option.not_isSome_iff_eq_none.mp hs
        by_cases hed : e = d
        · subst hed
          simp [hnone, firstRankAux]
        · simp only [alookup_cons, alookup_nil, hed, if_false]
          cases h : alookup d acc <;> simp [firstRankAux, hed]

theorem firstRankAux_eq_indexOf :
    ∀ (ids : List String) (i : Nat) (d : String),
      firstRankAux ids i d = if d ∈ ids then some (i + ids.indexOf d) else none := by
  intro ids
  induction ids with
  | nil => intro i d; simp [firstRankAux]
  | cons e es ih =>
      intro i d
      by_cases hed : e = d
      · subst hed
        simp [firstRankAux, List.indexOf_cons_self]
      · rw [firstRankAux, if_neg hed, ih]
        have hmem : d ∈ e :: es ↔ d ∈ es := by simp [hed, Ne.symm hed]
        by_cases hd : d ∈ es
        · rw [if_pos hd, if_pos (hmem.mpr hd), List.indexOf_cons_ne _ hed]
          congr 1
          omega
        · rw [if_neg hd, if_neg (fun h => hd (hmem.mp h))]

theorem buildRanks_alookup (ids : List String) (d : String) :
    alookup d (buildRanks ids) =
      if d ∈ ids then some (ids.indexOf d + 1) else none := by
  rw [buildRanks, ranksAux_alookup, alookup_nil, firstRankAux_eq_indexOf]
  by_cases hd : d ∈ ids <;> simp [hd, Nat.add_comm]

/-- C1 (amended): in `aggregate_search_hits`, for each modality subsequence the
rank map assigns each document id the 1-based position of its first occurrence
in that subsequence, counting every hit (duplicates included, not distinct
ids); later duplicate occurrences of an already-ranked id do not create or
change a rank entry. -/
theorem C1_rank_is_first_occurrence_position (hits : List SearchHit) (d : String) :
    (alookup d (buildRanks ((hits.filter (fun h => h.bm25.isSome)).map (fun h => h.id))) =
      if d ∈ (hits.filter (fun h => h.bm25.isSome)).map (fun h => h.id) then
        some (((hits.filter (fun h => h.bm25.isSome)).map (fun h => h.id)).indexOf d + 1)
      else none) ∧
    (alookup d (buildRanks ((hits.filter (fun h => h.cosine.isSome)).map (fun h => h.id))) =
      if d ∈ (hits.filter (fun h => h.cosine.isSome)).map (fun h => h.id) then
        some (((hits.filter (fun h => h.cosine.isSome)).map (fun h => h.id)).indexOf d + 1)
      else none) :=
  ⟨buildRanks_alookup _ _, buildRanks_alookup _ _⟩

/-! ### The merge-loop invariant (claims C2, C4, C5, C10) -/

@[simp]
theorem docPassages_nil (d : String) : docPassages [] d = [] :=
  rfl

theorem docPassages_append_single (hits : List SearchHit) (h : SearchHit) (d : String) :
    docPassages (hits ++ [h]) d =
      docPassages hits d ++ (if h.id = d then h.passages else []) := by
  rw [docPassages, List.filter_append, List.flatMap_append, docPassages]
  by_cases hd : h.id = d <;> simp [hd]

theorem docPassages_eq_nil_of_not_mem {hits : List SearchHit} {d : String}
    (hd : d ∉ hits.map (fun h => h.id)) : docPassages hits d = [] := by
  rw [docPassages]
  have : hits.filter (fun h => h.id = d) = [] := by
    rw [List.filter_eq_nil_iff]
    intro h hh
    simp only [decide_eq_true_eq]
    exact fun he => hd (List.mem_map.mpr ⟨h, hh, he⟩)
  rw [this]
  rfl

@[simp]
theorem absorbHit_id (m h : SearchHit) : (absorbHit m h).id = m.id :=
  rfl

@[simp]
theorem absorbHit_meta (m h : SearchHit) : (absorbHit m h).meta = m.meta :=
  rfl

@[simp]
theorem absorbHit_passages (m h : SearchHit) :
    (absorbHit m h).passages = m.passages ++ h.passages :=
  rfl

@[simp]
theorem finalizeHit_id (tr vr : List (String × Nat)) (w v : ℚ) (k : Int) (n : Nat)
    (m : SearchHit) : (finalizeHit tr vr w v k n m).id = m.id :=
  rfl

@[simp]
theorem finalizeHit_meta (tr vr : List (String × Nat)) (w v : ℚ) (k : Int) (n : Nat)
    (m : SearchHit) : (finalizeHit tr vr w v k n m).meta = m.meta :=
  rfl

@[simp]
theorem finalizeHit_score (tr vr : List (String × Nat)) (w v : ℚ) (k : Int) (n : Nat)
    (m : SearchHit) :
    (finalizeHit tr vr w v k n m).score =
      rrfTerm w k (alookup m.id tr) + rrfTerm v k (alookup m.id vr) :=
  rfl

@[simp]
theorem finalizeHit_passages (tr vr : List (String × Nat)) (w v : ℚ) (k : Int) (n : Nat)
    (m : SearchHit) :
    (finalizeHit tr vr w v k n m).passages = processPassages n m.passages :=
  rfl

theorem foldHit_step {processed : List SearchHit} {acc : List (String × SearchHit)}
    (h : SearchHit) (hinv : MergedInv processed acc) :
    MergedInv (processed ++ [h]) (foldHit acc h) := by
  obtain ⟨hnd, hkeys, hent⟩ := hinv
  rw [foldHit]
  cases hl : alookup h.id acc with
  | none =>
      have hnotin : h.id ∉ acc.map Prod.fst := (alookup_eq_none_iff _ _).mp hl
      have hnotproc : h.id ∉ processed.map (fun h => h.id) := by
        intro hc
        have := (hkeys h.id).mpr hc
        rw [hl] at this
        simp at this
      refine ⟨?_, ?_, ?_⟩
      · rw [List.map_append]
        simp only [List.map_cons, List.map_nil]
        rw [List.nodup_append]
        exact ⟨hnd, List.nodup_singleton _, by simpa using fun hc => hnotin hc⟩
      · intro d
        rw [alookup_append]
        cases hd : alookup d acc with
        | some v =>
            have : d ∈ processed.map (fun h => h.id) := (hkeys d).mp (by simp [hd])
            simp [this]
        | none =>
            have hdn : d ∉ processed.map (fun h => h.id) := by
              intro hc
              have := (hkeys d).mpr hc
              rw [hd] at this
              simp at this
            by_cases hdh : h.id = d
            · simp [hdh]
            · have hdh2 : ¬d = h.id := fun he => hdh he.symm
              simp [hdh, hdh2, hdn]
      · intro kv hkv
        rcases List.mem_append.mp hkv with hkv | hkv
        · obtain ⟨hid, hmeta, hpass⟩ := hent kv hkv
          have hne : h.id ≠ kv.1 := by
            intro he
            exact hnotin (he ▸ List.mem_map.mpr ⟨kv, hkv, rfl⟩)
          refine ⟨hid, hmeta, ?_⟩
          rw [docPassages_append_single, if_neg hne, List.append_nil]
          exact hpass
        · simp only [List.mem_singleton] at hkv
          subst hkv
          refine ⟨rfl, rfl, ?_⟩
          simp only [absorbHit_passages]
          rw [docPassages_append_single, if_pos rfl,
            docPassages_eq_nil_of_not_mem hnotproc]
          rfl
  | some m =>
      have hin : h.id ∈ processed.map (fun h => h.id) := (hkeys h.id).mp (by simp [hl])
      refine ⟨?_, ?_, ?_⟩
      · rw [map_fst_map_update]
        exact hnd
      · intro d
        rw [alookup_map_update]
        by_cases hdh : d = h.id
        · subst hdh
          rw [if_pos rfl, hl]
          simp [hin]
        · rw [if_neg hdh]
          rw [hkeys d]
          have : d ∈ (processed ++ [h]).map (fun h => h.id) ↔
              d ∈ processed.map (fun h => h.id) := by
            simp only [List.map_append, List.mem_append, List.map_cons, List.map_nil,
              List.mem_singleton]
            constructor
            · rintro (hc | hc)
              · exact hc
              · exact absurd hc hdh
            · exact Or.inl
          rw [this]
      · intro kv hkv
        obtain ⟨kv0, hkv0, hfkv⟩ := List.mem_map.mp hkv
        by_cases hk : kv0.1 = h.id
        · have hlk : alookup kv0.1 acc = some kv0.2 := alookup_of_mem_of_nodup hnd hkv0
          rw [hk, hl] at hlk
          have hm0 : m = kv0.2 := by injection hlk
          rw [if_pos hk] at hfkv
          subst hfkv
          obtain ⟨hid, hmeta, hpass⟩ := hent kv0 hkv0
          refine ⟨by rw [absorbHit_id, hm0]; exact hid,
            by rw [absorbHit_meta, hm0]; exact hmeta, ?_⟩
          simp only [absorbHit_passages]
          rw [docPassages_append_single, if_pos hk.symm, hm0, hpass]
        · rw [if_neg hk] at hfkv
          subst hfkv
          obtain ⟨hid, hmeta, hpass⟩ := hent kv0 hkv0
          refine ⟨hid, hmeta, ?_⟩
          rw [docPassages_append_single, if_neg (fun he => hk he.symm), List.append_nil]
          exact hpass

theorem mergedInv_foldl :
    ∀ (rest processed : List SearchHit) (acc : List (String × SearchHit)),
      MergedInv processed acc → MergedInv (processed ++ rest) (rest.foldl foldHit acc) := by
  intro rest
  induction rest with
  | nil => intro processed acc hinv; simpa using hinv
  | cons h t ih =>
      intro processed acc hinv
      have := ih (processed ++ [h]) (foldHit acc h) (foldHit_step h hinv)
      simpa [List.append_assoc] using this

theorem mergedInv (hits : List SearchHit) : MergedInv hits (hits.foldl foldHit []) := by
  have hbase : MergedInv [] [] := by
    refine ⟨List.nodup_nil, ?_, ?_⟩
    · intro d; simp
    · intro kv hkv; simp at hkv
  simpa using mergedInv_foldl hits [] [] hbase

/-! ### Output order (claim C6) -/

theorem hitDesc_trans : ∀ a b c : SearchHit, hitDesc a b → hitDesc b c → hitDesc a c := by
  intro a b c h1 h2
  simp only [hitDesc, decide_eq_true_eq] at *
  exact le_trans h2 h1

theorem hitDesc_total : ∀ a b : SearchHit, hitDesc a b || hitDesc b a := by
  intro a b
  simp only [hitDesc, Bool.or_eq_true, decide_eq_true_eq]
  exact le_total b.score a.score

/-- C6: the output of `aggregate_search_hits` is sorted by fused score
descending: every pair of output documents in order has non-increasing
scores.  (The order is deterministic: the embedding is a pure function and
the sort is a stable merge sort, as is CPython's `sorted`.) -/
theorem C6_output_sorted_desc (hits : List SearchHit) (w_text w_vector : ℚ) (rrf_k : Int)
    (n : Nat) :
    List.Pairwise (fun a b => b.score ≤ a.score)
      (aggregate_search_hits hits w_text w_vector rrf_k n) := by
  simp only [aggregate_search_hits]
  have hs := List.sorted_mergeSort hitDesc_trans hitDesc_total
    ((hits.foldl foldHit []).map (fun kv =>
      finalizeHit (buildRanks ((hits.filter (fun h => h.bm25.isSome)).map (fun h => h.id)))
        (buildRanks ((hits.filter (fun h => h.cosine.isSome)).map (fun h => h.id)))
        w_text w_vector rrf_k n kv.2))
  exact hs.imp (fun hab => by simpa [hitDesc] using hab)

/-! ### Fused score (claim C2) and id preservation (claim C5) -/

theorem aggregate_mem_iff {hits : List SearchHit} {w_text w_vector : ℚ} {rrf_k : Int}
    {n : Nat} {m : SearchHit} :
    m ∈ aggregate_search_hits hits w_text w_vector rrf_k n ↔
      ∃ kv ∈ hits.foldl foldHit [],
        m = finalizeHit
          (buildRanks ((hits.filter (fun h => h.bm25.isSome)).map (fun h => h.id)))
          (buildRanks ((hits.filter (fun h => h.cosine.isSome)).map (fun h => h.id)))
          w_text w_vector rrf_k n kv.2 := by
  simp only [aggregate_search_hits, List.mem_mergeSort, List.mem_map]
  constructor
  · rintro ⟨kv, hkv, rfl⟩; exact ⟨kv, hkv, rfl⟩
  · rintro ⟨kv, hkv, rfl⟩; exact ⟨kv, hkv, rfl⟩

/-- C5: the output document ids of `aggregate_search_hits` are exactly the
distinct document ids of the input, each appearing exactly once, and the
empty input yields the empty output. -/
theorem C5_output_ids_exact :
    (∀ (hits : List SearchHit) (w_text w_vector : ℚ) (rrf_k : Int) (n : Nat),
      (∀ d, d ∈ (aggregate_search_hits hits w_text w_vector rrf_k n).map (fun h => h.id) ↔
        d ∈ hits.map (fun h => h.id)) ∧
      ((aggregate_search_hits hits w_text w_vector rrf_k n).map (fun h => h.id)).Nodup) ∧
    (∀ (w_text w_vector : ℚ) (rrf_k : Int) (n : Nat),
      aggregate_search_hits [] w_text w_vector rrf_k n = []) := by
  constructor
  · intro hits w_text w_vector rrf_k n
    obtain ⟨hnd, hkeys, hent⟩ := mergedInv hits
    have hperm :
        List.Perm ((aggregate_search_hits hits w_text w_vector rrf_k n).map (fun h => h.id))
          ((hits.foldl foldHit []).map Prod.fst) := by
      simp only [aggregate_search_hits]
      refine (List.Perm.map _ (List.mergeSort_perm _ _)).trans ?_
      rw [List.map_map]
      apply List.Perm.of_eq
      apply List.map_congr_left
      intro kv hkv
      simp only [Function.comp_apply, finalizeHit_id]
      exact (hent kv hkv).1
    constructor
    · intro d
      rw [hperm.mem_iff]
      rw [← alookup_isSome_iff]
      exact hkeys d
    · exact hperm.nodup_iff.mpr hnd
  · intro w_text w_vector rrf_k n
    simp [aggregate_search_hits]

/-! ### Input independence (claim C10) -/

theorem foldHit_congr (acc : List (String × SearchHit)) {h h' : SearchHit}
    (hv : hitView h = hitView h') : foldHit acc h = foldHit acc h' := by
  obtain ⟨e1, e2, e3, e4⟩ :
      h.id = h'.id ∧ h.bm25 = h'.bm25 ∧ h.cosine = h'.cosine ∧ h.passages = h'.passages := by
    simpa [hitView, Prod.ext_iff] using hv
  have habs : ∀ m, absorbHit m h = absorbHit m h' := by
    intro m
    rw [absorbHit, absorbHit, e2, e3, e4]
  rw [foldHit, foldHit, e1]
  cases alookup h'.id acc with
  | none => rw [habs]
  | some m => simp only [habs]

theorem aggregate_view_congr :
    ∀ {hits hits' : List SearchHit}, hits.map hitView = hits'.map hitView →
      ((hits.filter (fun h => h.bm25.isSome)).map (fun h => h.id) =
        (hits'.filter (fun h => h.bm25.isSome)).map (fun h => h.id)) ∧
      ((hits.filter (fun h => h.cosine.isSome)).map (fun h => h.id) =
        (hits'.filter (fun h => h.cosine.isSome)).map (fun h => h.id)) ∧
      ∀ acc, hits.foldl foldHit acc = hits'.foldl foldHit acc := by
  intro hits
  induction hits with
  | nil =>
      intro hits' hv
      cases hits' with
      | nil => exact ⟨rfl, rfl, fun _ => rfl⟩
      | cons h' t' => simp at hv
  | cons h t ih =>
      intro hits' hv
      cases hits' with
      | nil => simp at hv
      | cons h' t' =>
          simp only [List.map_cons, List.cons.injEq] at hv
          obtain ⟨hvh, hvt⟩ := hv
          obtain ⟨e1, e2, e3, e4⟩ :
              h.id = h'.id ∧ h.bm25 = h'.bm25 ∧ h.cosine = h'.cosine ∧
                h.passages = h'.passages := by
            simpa [hitView, Prod.ext_iff] using hvh
          obtain ⟨ih1, ih2, ih3⟩ := ih hvt
          refine ⟨?_, ?_, ?_⟩
          · simp only [List.filter_cons, e2]
            by_cases hb : h'.bm25.isSome <;> simp [hb, e1, ih1]
          · simp only [List.filter_cons, e3]
            by_cases hb : h'.cosine.isSome <;> simp [hb, e1, ih2]
          · intro acc
            simp only [List.foldl_cons]
            rw [foldHit_congr acc hvh]
            exact ih3 _

/-- C10: `aggregate_search_hits` is a pure function of the `id`, `bm25`,
`cosine` and `passages` fields of its input hits — it never reads (let alone
writes) the inputs' `score` or `meta` — and every returned `SearchHit` is a
freshly constructed aggregate whose `meta` is unset.  (Non-mutation of the
inputs holds by construction in this embedding: the Python merge loop only
mutates `SearchHit(id=doc_id, passages=[])` objects it creates itself.) -/
theorem C10_pure_and_fresh_output :
    (∀ (hits hits' : List SearchHit) (w_text w_vector : ℚ) (rrf_k : Int) (n : Nat),
      hits.map hitView = hits'.map hitView →
      aggregate_search_hits hits w_text w_vector rrf_k n =
        aggregate_search_hits hits' w_text w_vector rrf_k n) ∧
    (∀ (hits : List SearchHit) (w_text w_vector : ℚ) (rrf_k : Int) (n : Nat)
        (m : SearchHit),
      m ∈ aggregate_search_hits hits w_text w_vector rrf_k n → m.meta = none) := by
  constructor
  · intro hits hits' w_text w_vector rrf_k n hv
    obtain ⟨h1, h2, h3⟩ := aggregate_view_congr hv
    simp only [aggregate_search_hits]
    rw [h1, h2, h3 []]
  · intro hits w_text w_vector rrf_k n m hm
    obtain ⟨kv, hkv, rfl⟩ := aggregate_mem_iff.mp hm
    obtain ⟨_, hmeta, _⟩ := (mergedInv hits).2.2 kv hkv
    rw [finalizeHit_meta, hmeta]

/-! ### The search endpoint: error propagation (claims C8, C9) -/

/-- C8 (amended): the `search` endpoint has no per-modality error handling:
if the lexical adapter raises, the error propagates and the whole request
fails regardless of the vector adapter; if the lexical adapter succeeds and
the vector adapter raises, that error propagates likewise.  A successful
response requires both modalities to succeed. -/
theorem C8_adapter_error_propagates :
    (∀ (ts vs : String → Int → Except String (List SearchHit))
        (gd : String → Except String DocumentMetaData)
        (query : String) (page page_size : Int) (e : String),
      ts query (recall_k (if page < 1 then 1 else page)
          (if page_size < 1 then 10 else page_size)) = Except.error e →
      search ts vs gd query page page_size = Except.error e) ∧
    (∀ (ts vs : String → Int → Except String (List SearchHit))
        (gd : String → Except String DocumentMetaData)
        (query : String) (page page_size : Int) (hits : List SearchHit) (e : String),
      ts query (recall_k (if page < 1 then 1 else page)
          (if page_size < 1 then 10 else page_size)) = Except.ok hits →
      vs query (recall_k (if page < 1 then 1 else page)
          (if page_size < 1 then 10 else page_size)) = Except.error e →
      search ts vs gd query page page_size = Except.error e) := by
  constructor
  · intro ts vs gd query page page_size e hts
    simp only [search, hts]
    rfl
  · intro ts vs gd query page page_size hits e hts hvs
    simp only [search, hts, hvs]
    rfl

/-- C9 (amended): the `search` endpoint performs no query validation: an
empty query string is not rejected with a client-input error; both retrieval
adapters are invoked on the empty query (with the default recall budget
`recall_k 1 10 = 50`) and their results or errors determine the outcome. -/
theorem C9_empty_query_reaches_adapters :
    (∀ (ts vs : String → Int → Except String (List SearchHit))
        (gd : String → Except String DocumentMetaData) (e : String),
      ts "" 50 = Except.error e → search ts vs gd "" 1 10 = Except.error e) ∧
    (∀ (ts vs : String → Int → Except String (List SearchHit))
        (gd : String → Except String DocumentMetaData) (hits : List SearchHit) (e : String),
      ts "" 50 = Except.ok hits → vs "" 50 = Except.error e →
      search ts vs gd "" 1 10 = Except.error e) := by
  have hk : recall_k 1 10 = 50 := rfl
  constructor
  · intro ts vs gd e hts
    simp [search, hk, hts]
    rfl
  · intro ts vs gd hits e hts hvs
    simp [search, hk, hts, hvs]
    rfl

/-! ### Passage deduplication (claim C4) -/

theorem updateBest_alookup (acc : List (String × Passage)) (p : Passage) (c : String) :
    alookup c (updateBest acc p) =
      if p.chunk_id = c then pyStep (alookup c acc) p else alookup c acc := by
  rw [updateBest]
  cases hl : alookup p.chunk_id acc with
  | none =>
      rw [alookup_append]
      by_cases hc : p.chunk_id = c
      · subst hc
        simp [hl, pyStep]
      · simp only [alookup_cons, alookup_nil, hc, if_false, if_neg hc]
        cases h2 : alookup c acc <;> simp
  | some old =>
      dsimp only
      by_cases hs : old.score < p.score
      · rw [if_pos hs, alookup_map_update]
        by_cases hc : p.chunk_id = c
        · subst hc
          simp [hl, pyStep, hs]
        · rw [if_neg (fun h => hc h.symm), if_neg hc]
      · rw [if_neg hs]
        by_cases hc : p.chunk_id = c
        · subst hc
          simp [hl, pyStep, hs]
        · rw [if_neg hc]

theorem bestByChunk_alookup :
    ∀ (ps : List Passage) (acc : List (String × Passage)) (c : String),
      alookup c (bestByChunk ps acc) =
        (ps.filter (fun p => p.chunk_id = c)).foldl pyStep (alookup c acc) := by
  intro ps
  induction ps with
  | nil => intro acc c; simp [bestByChunk]
  | cons p ps ih =>
      intro acc c
      rw [bestByChunk, ih, updateBest_alookup]
      by_cases hc : p.chunk_id = c
      · rw [if_pos hc, List.filter_cons_of_pos (by simp [hc]), List.foldl_cons]
      · rw [if_neg hc, List.filter_cons_of_neg (by simp [hc])]

theorem updateBest_map_fst (acc : List (String × Passage)) (p : Passage) :
    (updateBest acc p).map Prod.fst = acc.map Prod.fst ∨
    ((updateBest acc p).map Prod.fst = acc.map Prod.fst ++ [p.chunk_id] ∧
      p.chunk_id ∉ acc.map Prod.fst) := by
  rw [updateBest]
  cases hl : alookup p.chunk_id acc with
  | none =>
      right
      exact ⟨by simp, (alookup_eq_none_iff _ _).mp hl⟩
  | some old =>
      left
      dsimp only
      by_cases hs : old.score < p.score
      · rw [if_pos hs]
        exact map_fst_map_update _ _ _
      · rw [if_neg hs]

theorem bestByChunk_keys_nodup :
    ∀ (ps : List Passage) (acc : List (String × Passage)),
      (acc.map Prod.fst).Nodup → ((bestByChunk ps acc).map Prod.fst).Nodup := by
  intro ps
  induction ps with
  | nil => intro acc h; exact h
  | cons p ps ih =>
      intro acc h
      rw [bestByChunk]
      apply ih
      rcases updateBest_map_fst acc p with heq | ⟨heq, hnot⟩
      · rw [heq]; exact h
      · rw [heq, List.nodup_append]
        exact ⟨h, List.nodup_singleton _, by simpa using fun hc => hnot hc⟩

theorem find?_congr_mem {α : Type} {p q : α → Bool} :
    ∀ {l : List α}, (∀ a ∈ l, p a = q a) → l.find? p = l.find? q := by
  intro l
  induction l with
  | nil => intro _; rfl
  | cons a t ih =>
      intro h
      rw [List.find?_cons, List.find?_cons, h a (List.mem_cons_self a t)]
      cases hqa : q a
      · exact ih (fun b hb => h b (List.mem_cons_of_mem a hb))
      · rfl

theorem foldl_pyStep_some :
    ∀ (g : List Passage) (b : Passage),
      g.foldl pyStep (some b) = firstMax (b :: g) := by
  intro g
  induction g with
  | nil =>
      intro b
      simp [firstMax, List.find?_cons, List.all_cons]
  | cons p g ih =>
      intro b
      rw [List.foldl_cons]
      by_cases hbp : b.score < p.score
      · rw [show pyStep (some b) p = some p by simp [pyStep, hbp]]
        rw [ih]
        apply Eq.symm
        rw [firstMax, firstMax]
        have hpredb :
            ((b :: p :: g).all (fun q => decide (q.score ≤ b.score))) = false := by
          apply List.all_eq_false.mpr
          exact ⟨p, by simp, by simpa using not_le.mpr hbp⟩
        rw [List.find?_cons, hpredb]
        apply find?_congr_mem
        intro a _
        rw [List.all_cons]
        cases hpg : (p :: g).all (fun q => decide (q.score ≤ a.score))
        · rw [Bool.and_false]
        · have hpa : p.score ≤ a.score := by
            simpa using List.all_eq_true.mp hpg p (List.mem_cons_self p g)
          have hba : b.score ≤ a.score := le_of_lt (lt_of_lt_of_le hbp hpa)
          simp [hba]
      · have hpb : p.score ≤ b.score := le_of_not_lt hbp
        rw [show pyStep (some b) p = some b by simp [pyStep, hbp]]
        rw [ih]
        rw [firstMax, firstMax]
        cases hall : (b :: g).all (fun q => decide (q.score ≤ b.score)) with
        | true =>
            have hallL : (b :: p :: g).all (fun q => decide (q.score ≤ b.score)) = true := by
              have h1 := List.all_eq_true.mp hall
              apply List.all_eq_true.mpr
              intro q hq
              rcases List.mem_cons.mp hq with rfl | hq
              · simp
              · rcases List.mem_cons.mp hq with rfl | hq
                · simpa using hpb
                · exact h1 q (List.mem_cons_of_mem b hq)
            rw [List.find?_cons, List.find?_cons]
            rw [hall, hallL]
        | false =>
            have hgf : g.all (fun q => decide (q.score ≤ b.score)) = false := by
              have := hall
              rw [List.all_cons] at this
              simpa using this
            have hallL : (b :: p :: g).all (fun q => decide (q.score ≤ b.score)) = false := by
              rw [List.all_cons, List.all_cons, hgf]
              simp
            rw [List.find?_cons, List.find?_cons, hall, hallL]
            have hpredp : (b :: p :: g).all (fun q => decide (q.score ≤ p.score)) = false := by
              by_cases hbple : b.score ≤ p.score
              · have hpeq : p.score = b.score := le_antisymm hpb hbple
                rw [List.all_cons, List.all_cons, hpeq, hgf]
                simp
              · apply List.all_eq_false.mpr
                exact ⟨b, by simp, by simpa using hbple⟩
            rw [List.find?_cons, hpredp]
            apply find?_congr_mem
            intro a ha
            rw [List.all_cons, List.all_cons]
            cases hba : decide (b.score ≤ a.score)
            · rw [Bool.false_and, Bool.false_and]
            · have hba' : b.score ≤ a.score := of_decide_eq_true hba
              have hpa : decide (p.score ≤ a.score) = true :=
                decide_eq_true (le_trans hpb hba')
              rw [Bool.true_and, Bool.true_and, List.all_cons, hpa, Bool.true_and]

theorem foldl_pyStep_none (g : List Passage) :
    g.foldl pyStep none = firstMax g := by
  cases g with
  | nil => rfl
  | cons p g =>
      rw [List.foldl_cons]
      rw [show pyStep none p = some p from rfl]
      exact foldl_pyStep_some g p

theorem bestByChunk_entry {ps : List Passage} {kv : String × Passage}
    (hkv : kv ∈ bestByChunk ps []) :
    kv.2.chunk_id = kv.1 ∧ firstBest ps kv.1 = some kv.2 := by
  have hnd : ((bestByChunk ps []).map Prod.fst).Nodup :=
    bestByChunk_keys_nodup ps [] (by simp)
  have hlk : alookup kv.1 (bestByChunk ps []) = some kv.2 :=
    alookup_of_mem_of_nodup hnd hkv
  rw [bestByChunk_alookup, alookup_nil, foldl_pyStep_none] at hlk
  have hmem : kv.2 ∈ ps.filter (fun p => p.chunk_id = kv.1) := by
    rw [firstMax] at hlk
    exact List.mem_of_find?_eq_some hlk
  have hc : kv.2.chunk_id = kv.1 := by
    simpa using (List.mem_filter.mp hmem).2
  exact ⟨hc, by rw [firstBest]; exact hlk⟩

theorem updateBest_map_fst_of_mem {acc : List (String × Passage)} {p : Passage}
    (h : p.chunk_id ∈ acc.map Prod.fst) :
    (updateBest acc p).map Prod.fst = acc.map Prod.fst := by
  rw [updateBest]
  cases hl : alookup p.chunk_id acc with
  | none => exact absurd h ((alookup_eq_none_iff _ _).mp hl)
  | some old =>
      dsimp only
      by_cases hs : old.score < p.score
      · rw [if_pos hs]
        exact map_fst_map_update _ _ _
      · rw [if_neg hs]

theorem updateBest_map_fst_of_not_mem {acc : List (String × Passage)} {p : Passage}
    (h : p.chunk_id ∉ acc.map Prod.fst) :
    (updateBest acc p).map Prod.fst = acc.map Prod.fst ++ [p.chunk_id] := by
  rw [updateBest]
  cases hl : alookup p.chunk_id acc with
  | none => simp
  | some old =>
      exact absurd ((alookup_isSome_iff _ _).mp (by simp [hl])) h

theorem firstDedup_filter (q : String → Bool) :
    ∀ (l : List String), firstDedup (l.filter q) = (firstDedup l).filter q := by
  intro l
  induction l with
  | nil => rfl
  | cons x xs ih =>
      cases hqx : q x with
      | true =>
          rw [List.filter_cons_of_pos (by simp [hqx])]
          rw [firstDedup, firstDedup, ih, List.filter_cons_of_pos (by simp [hqx])]
          rw [List.filter_filter, List.filter_filter]
          apply congrArg (x :: ·)
          apply List.filter_congr
          intro y _
          rw [Bool.and_comm]
      | false =>
          rw [List.filter_cons_of_neg (by simp [hqx]), ih, firstDedup,
            List.filter_cons_of_neg (by simp [hqx]), List.filter_filter]
          apply Eq.symm
          apply List.filter_congr
          intro y _
          cases hqy : q y with
          | false => rw [Bool.false_and]
          | true =>
              have hyx : decide (y ≠ x) = true := by
                apply decide_eq_true
                intro he
                rw [he, hqx] at hqy
                exact Bool.false_ne_true hqy
              rw [Bool.true_and]
              exact hyx

theorem bestByChunk_map_fst :
    ∀ (ps : List Passage) (acc : List (String × Passage)),
      (bestByChunk ps acc).map Prod.fst =
        acc.map Prod.fst ++
          firstDedup ((ps.map (fun p => p.chunk_id)).filter
            (fun c => decide (c ∉ acc.map Prod.fst))) := by
  intro ps
  induction ps with
  | nil => intro acc; simp [bestByChunk, firstDedup]
  | cons p ps ih =>
      intro acc
      rw [bestByChunk, ih]
      by_cases hmem : p.chunk_id ∈ acc.map Prod.fst
      · rw [updateBest_map_fst_of_mem hmem]
        rw [List.map_cons, List.filter_cons_of_neg (by simp [hmem])]
      · rw [updateBest_map_fst_of_not_mem hmem]
        rw [List.map_cons, List.filter_cons_of_pos (by simp [hmem])]
        rw [firstDedup, List.append_assoc, List.singleton_append]
        apply congrArg (acc.map Prod.fst ++ ·)
        apply congrArg (p.chunk_id :: ·)
        have hfuse :
            (ps.map (fun p => p.chunk_id)).filter
                (fun c => decide (c ∉ (acc.map Prod.fst ++ [p.chunk_id]))) =
              ((ps.map (fun p => p.chunk_id)).filter
                (fun c => decide (c ∉ acc.map Prod.fst))).filter
                (fun y => decide (y ≠ p.chunk_id)) := by
          rw [List.filter_filter]
          apply List.filter_congr
          intro y _
          by_cases h1 : y ∈ List.map Prod.fst acc
          · simp [h1]
          · by_cases h2 : y = p.chunk_id
            · simp [h1, h2]
            · simp [h1, h2]
        rw [hfuse, firstDedup_filter]

theorem map_snd_eq_filterMap_firstBest (ps : List Passage) :
    ∀ (l : List (String × Passage)), (∀ kv ∈ l, firstBest ps kv.1 = some kv.2) →
      l.map (fun kv => kv.2) = (l.map Prod.fst).filterMap (fun c => firstBest ps c) := by
  intro l
  induction l with
  | nil => intro _; rfl
  | cons kv t ih =>
      intro h
      have h1 := h kv (List.mem_cons_self kv t)
      simp only [List.map_cons, List.filterMap_cons, h1]
      rw [ih (fun kv' h' => h kv' (List.mem_cons_of_mem kv h'))]

/-- The values of the `best_by_chunk` dict, in insertion order, are exactly
the spec-side dedup: for each chunk id in order of first appearance, the
first passage attaining that chunk's highest score. -/
theorem bestByChunk_values_eq_dedupSpec (ps : List Passage) :
    (bestByChunk ps []).map (fun kv => kv.2) = dedupByChunkSpec ps := by
  have hkeys : (bestByChunk ps []).map Prod.fst = firstDedup (ps.map (fun p => p.chunk_id)) := by
    have h := bestByChunk_map_fst ps []
    simpa using h
  rw [map_snd_eq_filterMap_firstBest ps _ (fun kv hkv => (bestByChunk_entry hkv).2), hkeys,
    dedupByChunkSpec]

/-- `processPassages` is exactly: spec-side dedup, stable sort by score
descending, truncate. -/
theorem processPassages_eq_spec (maxP : Nat) (ps : List Passage) :
    processPassages maxP ps = ((dedupByChunkSpec ps).mergeSort passageDesc).take maxP := by
  rw [processPassages, bestByChunk_values_eq_dedupSpec]

theorem passageDesc_trans :
    ∀ a b c : Passage, passageDesc a b → passageDesc b c → passageDesc a c := by
  intro a b c h1 h2
  simp only [passageDesc, decide_eq_true_eq] at *
  exact le_trans h2 h1

theorem passageDesc_total : ∀ a b : Passage, passageDesc a b || passageDesc b a := by
  intro a b
  simp only [passageDesc, Bool.or_eq_true, decide_eq_true_eq]
  exact le_total b.score a.score

theorem processPassages_spec (maxP : Nat) (ps : List Passage) :
    (processPassages maxP ps).length ≤ maxP ∧
    List.Pairwise (fun a b => b.score ≤ a.score) (processPassages maxP ps) ∧
    ((processPassages maxP ps).map (fun p => p.chunk_id)).Nodup ∧
    ∀ p ∈ processPassages maxP ps, firstBest ps p.chunk_id = some p := by
  refine ⟨?_, ?_, ?_, ?_⟩
  · rw [processPassages, List.length_take]
    exact min_le_left _ _
  · rw [processPassages]
    apply List.Pairwise.sublist (List.take_sublist _ _)
    have hs := List.sorted_mergeSort passageDesc_trans passageDesc_total
      ((bestByChunk ps []).map (fun kv => kv.2))
    exact hs.imp (fun hab => by simpa [passageDesc] using hab)
  · rw [processPassages]
    have hvals :
        (((bestByChunk ps []).map (fun kv => kv.2)).map (fun p => p.chunk_id)).Nodup := by
      have hkeys :
          ((bestByChunk ps []).map (fun kv => kv.2)).map (fun p => p.chunk_id) =
            (bestByChunk ps []).map Prod.fst := by
        rw [List.map_map]
        apply List.map_congr_left
        intro kv hkv
        exact (bestByChunk_entry hkv).1
      rw [hkeys]
      exact bestByChunk_keys_nodup ps [] (by simp)
    have hms :
        (((((bestByChunk ps []).map (fun kv => kv.2)).mergeSort passageDesc)).map
          (fun p => p.chunk_id)).Nodup :=
      ((List.mergeSort_perm _ _).map _).nodup_iff.mpr hvals
    exact ((List.take_sublist _ _).map _).nodup hms
  · intro p hp
    rw [processPassages] at hp
    have hp2 : p ∈ (bestByChunk ps []).map (fun kv => kv.2) := by
      have hms := (List.take_sublist maxP _).subset hp
      exact (List.mem_mergeSort).mp hms
    obtain ⟨kv, hkv, rfl⟩ := List.mem_map.mp hp2
    obtain ⟨hc, hfb⟩ := bestByChunk_entry hkv
    rw [hc]
    exact hfb

/-! ### Snippet extraction (claim C7) -/

/-- C7: `make_snippet` returns the empty string on empty text; returns the
first `window` characters followed by an ellipsis marker exactly when the
text is longer than `window`, both when the whitespace-trimmed query is empty
and when the case-insensitive search finds no occurrence (in particular
`make_snippet "hello world" "" 4 = "hell..."`); and when the first
case-insensitive occurrence is at offset `idx`, returns the substring from
`max 0 (idx - window/2)` (natural truncated subtraction) to
`min (length text) (idx + window/2)`, with an ellipsis marker in front iff
the start was clamped above 0 and one behind iff the end was clamped below
the text length. -/
theorem C7_make_snippet_spec :
    (∀ (query : List Char) (window : Nat), make_snippet [] query window = []) ∧
    (∀ (text query : List Char) (window : Nat),
      pyStrip query = [] →
      make_snippet text query window =
        text.take window ++ (if window < text.length then ellipsis else [])) ∧
    (∀ (text query : List Char) (window : Nat),
      pyStrip query ≠ [] →
      strFind (lowerStr text) (lowerStr (pyStrip query)) = none →
      make_snippet text query window =
        text.take window ++ (if window < text.length then ellipsis else [])) ∧
    (∀ (text query : List Char) (window : Nat) (idx : Nat),
      text ≠ [] →
      pyStrip query ≠ [] →
      strFind (lowerStr text) (lowerStr (pyStrip query)) = some idx →
      make_snippet text query window =
        (if 0 < idx - window / 2 then ellipsis else []) ++
          (text.drop (idx - window / 2)).take
            (min text.length (idx + window / 2) - (idx - window / 2)) ++
          (if min text.length (idx + window / 2) < text.length then ellipsis else [])) ∧
    make_snippet "hello world".toList "".toList 4 = "hell...".toList := by
  refine ⟨?_, ?_, ?_, ?_, by decide⟩
  · intro q w
    simp [make_snippet]
  · intro t q w hq
    by_cases ht : t = []
    · subst ht; simp [make_snippet]
    · simp [make_snippet, ht, hq]
  · intro t q w hq hfind
    by_cases ht : t = []
    · subst ht; simp [make_snippet]
    · simp [make_snippet, ht, hq, hfind]
  · intro t q w idx ht hq hfind
    simp [make_snippet, ht, hq, hfind]

theorem C7_make_snippet_spec_witness :
    make_snippet "the quick brown fox".toList "quick".toList 10 = "the quick...".toList :=
  (C7_make_snippet_spec.2.2.2.1 "the quick brown fox".toList "quick".toList 10 4
      (by decide) (by decide) (by decide)).trans (by decide)

section ConcreteEvaluation

attribute [local semireducible] Rat.mul Rat.inv Rat.add Rat.sub

unseal List.merge List.mergeSort in
/-- C1 counterexample: for the text subsequence with document ids
`["A", "A", "B"]`, the code assigns `"B"` rank 3 (the enumeration index of its
first occurrence, counting duplicate hits), not rank 2 as the
distinct-id-count reading of the claim states; correspondingly the fused score
of `"B"` is `1/63`, not `1/62`. -/
theorem C1_counterexample :
    alookup "B" (buildRanks ["A", "A", "B"]) = some 3 ∧
    alookup "B" (buildRanks ["A", "A", "B"]) ≠ some 2 ∧
    (aggregate_search_hits
        [{ emptyHit "A" with bm25 := some 5 }, { emptyHit "A" with bm25 := some 4 },
          { emptyHit "B" with bm25 := some 3 }] 1 1 60 3).map (fun h => (h.id, h.score)) =
      [("A", 1/61), ("B", 1/63)] ∧
    (1 : ℚ)/63 ≠ 1/62 :=
  ⟨by decide, by decide, by decide, by decide⟩

unseal List.merge List.mergeSort in
/-- C2: each merged document's fused score is `w_text * (1/(rrf_k + text_rank))`
when the document has a text rank plus `w_vector * (1/(rrf_k + vector_rank))`
when it has a vector rank, a missing modality contributing nothing; with the
defaults (`w_text = w_vector = 1`, `rrf_k = 60`), lexical rank 1 alone scores
exactly `1/61`, and lexical rank 1 combined with vector rank 1 scores exactly
`2/61`. -/
theorem C2_rrf_fused_score :
    (∀ (hits : List SearchHit) (w_text w_vector : ℚ) (rrf_k : Int) (n : Nat)
        (m : SearchHit), m ∈ aggregate_search_hits hits w_text w_vector rrf_k n →
      m.score =
        (alookup m.id
            (buildRanks ((hits.filter (fun h => h.bm25.isSome)).map (fun h => h.id)))).elim
          0 (fun r => w_text * (1 / ((rrf_k : ℚ) + (r : ℚ)))) +
        (alookup m.id
            (buildRanks ((hits.filter (fun h => h.cosine.isSome)).map (fun h => h.id)))).elim
          0 (fun r => w_vector * (1 / ((rrf_k : ℚ) + (r : ℚ))))) ∧
    (aggregate_search_hits [{ emptyHit "A" with bm25 := some 5 }] 1 1 60 3).map
      (fun h => h.score) = [1/61] ∧
    (aggregate_search_hits [{ emptyHit "A" with bm25 := some 5 },
        { emptyHit "A" with cosine := some (9/10) }] 1 1 60 3).map
      (fun h => h.score) = [2/61] := by
  refine ⟨?_, by decide, by decide⟩
  intro hits w_text w_vector rrf_k n m hm
  obtain ⟨kv, hkv, rfl⟩ := aggregate_mem_iff.mp hm
  have helim : ∀ (o : Option Nat) (w : ℚ),
      rrfTerm w rrf_k o = o.elim 0 (fun r => w * (1 / ((rrf_k : ℚ) + (r : ℚ)))) := by
    intro o w
    cases o <;> simp [rrfTerm]
  simp only [finalizeHit_score, finalizeHit_id, helim]

unseal List.merge List.mergeSort in
theorem C2_rrf_fused_score_witness :
    ({ id := "A", bm25 := some 5, cosine := none, score := 1/61, meta := none,
        passages := [] } : SearchHit).score = 1/61 :=
  (C2_rrf_fused_score.1 [{ emptyHit "A" with bm25 := some 5 }] 1 1 60 3
      { id := "A", bm25 := some 5, cosine := none, score := 1/61, meta := none,
        passages := [] }
      (by decide)).trans (by decide)

unseal List.merge List.mergeSort in
/-- C4: each output document's passages are EXACTLY the input passages of
that document deduplicated by chunk id — per chunk id (groups in order of
first appearance) the first passage attaining the highest score survives
(strict-greater updates keep the first on ties) — stable-sorted by score
descending and truncated to at most `max_passages_per_doc`; in particular the
output is at most `n` long, sorted descending, has distinct chunk ids, every
output passage is its chunk group's first-best, and no surviving chunk group
beyond the truncation rule is dropped (the equality pins the output
completely).  Concretely, two hits carrying the same chunk id with scores 1
and 2 yield exactly one passage for that chunk, with score 2. -/
theorem C4_passages_dedup_sort_truncate :
    (∀ (hits : List SearchHit) (w_text w_vector : ℚ) (rrf_k : Int) (n : Nat)
        (m : SearchHit), m ∈ aggregate_search_hits hits w_text w_vector rrf_k n →
      m.passages =
        ((dedupByChunkSpec (docPassages hits m.id)).mergeSort passageDesc).take n ∧
      m.passages.length ≤ n ∧
      List.Pairwise (fun a b => b.score ≤ a.score) m.passages ∧
      (m.passages.map (fun p => p.chunk_id)).Nodup ∧
      ∀ p ∈ m.passages, firstBest (docPassages hits m.id) p.chunk_id = some p) ∧
    (aggregate_search_hits demoDupChunkHits 1 1 60 3).map
      (fun h => h.passages.map (fun p => (p.chunk_id, p.score))) = [[("c1", 2)]] := by
  refine ⟨?_, by decide⟩
  intro hits w_text w_vector rrf_k n m hm
  obtain ⟨kv, hkv, rfl⟩ := aggregate_mem_iff.mp hm
  obtain ⟨hid, _, hpass⟩ := (mergedInv hits).2.2 kv hkv
  simp only [finalizeHit_passages, finalizeHit_id]
  rw [hid, hpass]
  exact ⟨processPassages_eq_spec n _, processPassages_spec n _⟩

unseal List.merge List.mergeSort in
theorem C4_passages_dedup_sort_truncate_witness :
    ([demoPassageHigh] =
      ((dedupByChunkSpec (docPassages demoDupChunkHits "A")).mergeSort passageDesc).take 3) ∧
    [demoPassageHigh].length ≤ 3 ∧
    List.Pairwise (fun a b => b.score ≤ a.score) [demoPassageHigh] ∧
    (([demoPassageHigh]).map (fun p => p.chunk_id)).Nodup ∧
    (∀ p ∈ [demoPassageHigh],
      firstBest (docPassages demoDupChunkHits "A") p.chunk_id = some p) :=
  C4_passages_dedup_sort_truncate.1 demoDupChunkHits 1 1 60 3
    { id := "A", bm25 := some 5, cosine := some 1, score := 2/61, meta := none,
      passages := [demoPassageHigh] }
    (by decide)

unseal List.merge List.mergeSort in
/-- C3 (code bug): the merged raw scores are computed with
`max(m.field or float("-inf"), h.field)`, and Python's `or` treats the float
`0.0` as falsy, so a previously folded raw score of `0` is discarded: two
hits for document `"d"` with `bm25` scores `0` and `-1` fold to `bm25 = -1`,
although the maximum of the raw scores is `0` (the code's own comment says
"Keep best raw scores").  The cosine field has the same defect. -/
theorem C3_raw_score_zero_falsy_bug :
    (aggregate_search_hits [{ emptyHit "d" with bm25 := some 0 },
        { emptyHit "d" with bm25 := some (-1) }] 1 1 60 3).map (fun h => h.bm25) =
      [some (-1)] ∧
    max (0 : ℚ) (-1) = 0 ∧
    (aggregate_search_hits [{ emptyHit "d" with cosine := some 0 },
        { emptyHit "d" with cosine := some (-1) }] 1 1 60 3).map (fun h => h.cosine) =
      [some (-1)] :=
  ⟨by decide, by decide, by decide⟩

/-- C8 counterexample: with the lexical adapter raising and the vector
adapter succeeding, the request fails with the lexical error instead of
returning the vector-derived hits. -/
theorem C8_counterexample :
    search (fun _ _ => Except.error "lexical down")
      (fun _ _ => Except.ok [{ emptyHit "A" with cosine := some 1 }])
      (fun _ => Except.ok sampleMeta)
      "q" 1 10 = Except.error "lexical down" :=
  rfl

theorem C8_adapter_error_propagates_witness :
    search (fun _ _ => Except.error "boom") (fun _ _ => Except.ok [])
      (fun _ => Except.error "nometa") "q" 2 3 = Except.error "boom" ∧
    search (fun _ _ => Except.ok []) (fun _ _ => Except.error "vboom")
      (fun _ => Except.error "nometa") "q" 2 3 = Except.error "vboom" :=
  ⟨C8_adapter_error_propagates.1 (fun _ _ => Except.error "boom") (fun _ _ => Except.ok [])
      (fun _ => Except.error "nometa") "q" 2 3 "boom" rfl,
   C8_adapter_error_propagates.2 (fun _ _ => Except.ok []) (fun _ _ => Except.error "vboom")
      (fun _ => Except.error "nometa") "q" 2 3 [] "vboom" rfl rfl⟩

unseal List.merge List.mergeSort in
/-- C9 counterexample: a request with an empty query string is not rejected
with a client-input error; with both adapters succeeding (here: returning no
hits) the search completes successfully. -/
theorem C9_counterexample :
    search (fun _ _ => Except.ok []) (fun _ _ => Except.ok [])
      (fun _ => Except.error "nometa") "" 1 10 =
      Except.ok
        { query := "", page := 1, page_size := 10, total_results := 0,
          total_pages := 0, results := [] } :=
  rfl

theorem C9_empty_query_reaches_adapters_witness :
    search (fun _ _ => Except.error "lexfail") (fun _ _ => Except.ok [])
      (fun _ => Except.ok sampleMeta) "" 1 10 = Except.error "lexfail" ∧
    search (fun _ _ => Except.ok []) (fun _ _ => Except.error "vecfail")
      (fun _ => Except.ok sampleMeta) "" 1 10 = Except.error "vecfail" :=
  ⟨C9_empty_query_reaches_adapters.1 (fun _ _ => Except.error "lexfail")
      (fun _ _ => Except.ok []) (fun _ => Except.ok sampleMeta) "lexfail" rfl,
   C9_empty_query_reaches_adapters.2 (fun _ _ => Except.ok [])
      (fun _ _ => Except.error "vecfail") (fun _ => Except.ok sampleMeta) [] "vecfail" rfl rfl⟩

unseal List.merge List.mergeSort in
theorem C10_pure_and_fresh_output_witness :
    aggregate_search_hits [scoredMetaHit] 1 1 60 3 =
      aggregate_search_hits [{ emptyHit "A" with bm25 := some 2 }] 1 1 60 3 ∧
    ({ id := "A", bm25 := some 2, cosine := none, score := 1/61, meta := none,
        passages := [] } : SearchHit).meta = none :=
  ⟨C10_pure_and_fresh_output.1 [scoredMetaHit] [{ emptyHit "A" with bm25 := some 2 }]
      1 1 60 3 (by decide),
   C10_pure_and_fresh_output.2 [{ emptyHit "A" with bm25 := some 2 }] 1 1 60 3
      { id := "A", bm25 := some 2, cosine := none, score := 1/61, meta := none,
        passages := [] } (by decide)⟩

end ConcreteEvaluation

end Semase
